import Mathlib

/-!
# CrowdShield — verification of the natural-language specification

Shallow embedding of the CrowdShield repository:

* the continuous rolling-buffer incident recorder (ring buffer, presence
  tracker, clip exporter, capture loop) described by `spec.md` and
  `src/model/test-model/README.md`.  The recorder's Python source is not part
  of the repository snapshot, so these components are modelled from the spec
  (each such definition carries a `Modelled from the spec:` doc comment);
* the dashboard frontend (`src/frontend/app/page.tsx`,
  `src/frontend/app/session/page.tsx`, `src/unnamed/part_000`), translated
  directly from the TypeScript source.

Machine reals (JS numbers, Python floats) are embedded as exact rationals;
wall-clock instants of the recorder are embedded as exact integral clock
ticks.  JS strings are embedded as `String`/`List Char`, or as lists of
their code points where character arithmetic matters.
-/

namespace CrowdShield

/-! ## Decimal rendering helpers

Shared by the clip-filename generator and the video player's `formatTime`.
`digitsF` computes the little-endian base-10 digit list of `n` with explicit
fuel (so that the kernel can evaluate it); `natChars` renders a natural
number the way JavaScript's `Number.prototype.toString` and Python's `str`
render it (most-significant digit first, `"0"` for zero). -/

def digitsF : Nat → Nat → List Nat
  | 0, _ => []
  | fuel + 1, n => if n = 0 then [] else n % 10 :: digitsF fuel (n / 10)

def decDigits (n : Nat) : List Nat := digitsF n n

/-- Little-endian base-10 valuation, a left inverse of `decDigits`. -/
def undigits : List Nat → Nat
  | [] => 0
  | d :: ds => d + 10 * undigits ds

/-- The character for a single decimal digit. -/
def digitChar (d : Nat) : Char := Char.ofNat (48 + d)

/-- Decimal rendering of a natural number, most-significant digit first,
rendering `0` as `"0"` (as JavaScript's `toString` and Python's `str` do). -/
def natChars (n : Nat) : List Char :=
  if n = 0 then ['0'] else ((decDigits n).map digitChar).reverse

/-- Decimal rendering of an integer, with a leading minus sign when
negative (as JavaScript's `toString` does). -/
def intChars (i : ℤ) : List Char :=
  if i < 0 then '-' :: natChars i.natAbs else natChars i.toNat

/-- JavaScript's `String.prototype.padStart` on character lists. -/
def padStart (len : Nat) (c : Char) (s : List Char) : List Char :=
  List.replicate (len - s.length) c ++ s

/-! ## Dashboard: severity colour helper

From `getSeverityColor` in `src/frontend/app/page.tsx` (lines 79–86),
`src/frontend/app/session/page.tsx` (lines 116–123) and
`src/unnamed/part_000` (lines 117–124) — the three copies are identical.
A JS string is a sequence of UTF-16 code units, embedded as `List Nat`;
a missing (`null`/`undefined`) argument is embedded as `none`, matching the
optional-chaining `sev?.toLowerCase()` which makes the `switch` scrutinee
`undefined` and so selects the `default` branch. -/

/-- `toLowerCase` on a single code unit, for the ASCII range (the only
characters the dashboard's severity literals contain). -/
def toLowerCode (c : Nat) : Nat := if 65 ≤ c ∧ c ≤ 90 then c + 32 else c

/-- JavaScript's `String.prototype.toLowerCase` on a code-unit list. -/
def jsToLowerCase (s : List Nat) : List Nat := s.map toLowerCode

/-- The code-unit list of a string literal. -/
def strCodes (s : String) : List Nat := s.data.map Char.toNat

/-- `getSeverityColor` from the dashboard pages: a `switch` on
`sev?.toLowerCase()` returning one of four Tailwind classes. -/
def getSeverityColor : Option (List Nat) → String
  | none => "bg-gray-500"
  | some sev =>
      if jsToLowerCase sev = strCodes "critical" then "bg-red-600"
      else if jsToLowerCase sev = strCodes "warning" then "bg-orange-500"
      else if jsToLowerCase sev = strCodes "informational" then "bg-blue-500"
      else "bg-gray-500"

/-! ## Dashboard: session list and the approve / reject optimistic update

From the `Session` interface and `handleApprove` / `handleReject` in
`src/frontend/app/session/page.tsx` (lines 25–38, 262–276, 288–302). -/

structure Session where
  session_id : String
  status : String
  description : String
  notify_to : String
  created_at : String
  video_url : String
  live_url : String
  camera_id : String
  latitude : String
  longitude : String
  severity : String
  confidence : String
deriving DecidableEq

/-- The optimistic update in `handleApprove`:
`sessions.map(s => s.session_id === session.session_id ? { ...s, status: 'approved' } : s)`. -/
def approveUpdate (sessions : List Session) (sid : String) : List Session :=
  sessions.map fun s => if s.session_id = sid then { s with status := "approved" } else s

/-- The optimistic update in `handleReject`:
`sessions.map(s => s.session_id === session.session_id ? { ...s, status: 'rejected' } : s)`. -/
def rejectUpdate (sessions : List Session) (sid : String) : List Session :=
  sessions.map fun s => if s.session_id = sid then { s with status := "rejected" } else s

/-! ## Dashboard: the video player's `formatTime`

From `formatTime` in `src/frontend/app/session/page.tsx` (lines 57–61) and
`src/unnamed/part_000` (lines 58–62):

```js
const minutes = Math.floor(time / 60);
const seconds = Math.floor(time % 60);
return `${minutes.toString().padStart(2, '0')}:${seconds.toString().padStart(2, '0')}`;
```

The JS number `time` is embedded as an exact rational.  `Math.floor` is the
real floor; JS `%` is the truncated remainder `a - b * trunc(a / b)`.  Both
are computed below over `q.num` / `q.den` so that the kernel can evaluate
them (Lean's `Int` `/` is floor division, `Int.tdiv` truncates). -/

/-- `Math.floor (q / m)` over the exact rational `q`. -/
def jsFloorDiv (q : ℚ) (m : ℕ) : ℤ := q.num / ((q.den : ℤ) * m)

/-- The truncated quotient `trunc (q / m)` used by JavaScript's `%`. -/
def jsTruncDiv (q : ℚ) (m : ℕ) : ℤ := Int.tdiv q.num ((q.den : ℤ) * m)

/-- `Math.floor (q % m)` where `%` is JavaScript's truncated remainder:
`q % m = q - m * trunc (q / m)`, and the floor of `q` minus an integer is
`⌊q⌋ - that integer` with `⌊q⌋ = q.num / q.den`. -/
def jsFloorMod (q : ℚ) (m : ℕ) : ℤ :=
  q.num / (q.den : ℤ) - m * jsTruncDiv q m

/-- `formatTime` from the session pages. -/
def formatTime (q : ℚ) : String :=
  String.mk (padStart 2 '0' (intChars (jsFloorDiv q 60)) ++
    ':' :: padStart 2 '0' (intChars (jsFloorMod q 60)))

/-! ## Recorder: configuration surface

Modelled from the spec: §6 "Configuration surface (recognized options):
model/detector handle, confidence threshold (default 0.25), compute target,
output directory (default `recordings`), buffer duration in seconds
(default 10.0)" and the README's option list (`--model` default
`yolo11n.pt`, `--conf` default `0.25`, `--device`, `--save-dir` default
`recordings`, `--buffer-seconds` default `10.0`). -/

structure RecorderOptions where
  model : Option String
  conf : Option ℚ
  device : Option String
  saveDir : Option String
  bufferSeconds : Option ℚ
deriving DecidableEq

structure RecorderConfig where
  modelPath : String
  conf : ℚ
  device : Option String
  saveDir : String
  bufferSeconds : ℚ
deriving DecidableEq

/-- Modelled from the spec: each recognized option falls back to its
documented default when not supplied. -/
def resolveConfig (o : RecorderOptions) : RecorderConfig where
  modelPath := o.model.getD "yolo11n.pt"
  conf := o.conf.getD 0.25
  device := o.device
  saveDir := o.saveDir.getD "recordings"
  bufferSeconds := o.bufferSeconds.getD 10.0

/-! ## Recorder: data model

Modelled from the spec (§3).  Wall-clock time is embedded as exact integral
clock ticks (`ℤ`, e.g. milliseconds); the configured buffer duration is
expressed in the same unit.  A `Frame` is an immutable capture with a
monotonic timestamp and a sequence number (the image payload is irrelevant
to every claim and is identified by the sequence number). -/

structure Frame where
  seq : Nat
  ts : ℤ
deriving DecidableEq

/-- Modelled from the spec: §3/§4.1 — an ordered sequence of frames
spanning a configured wall-clock duration. -/
structure RingBuffer where
  duration : ℤ
  frames : List Frame
deriving DecidableEq

/-- Modelled from the spec: `push(frame)` inserts a new frame and evicts
frames older than the configured duration, maintaining the invariant that
the buffer holds exactly the frames with timestamp in `[now - duration, now]`
where `now` is the newest frame's timestamp. -/
def RingBuffer.push (b : RingBuffer) (f : Frame) : RingBuffer :=
  ⟨b.duration, (b.frames ++ [f]).filter fun g => decide (f.ts - b.duration ≤ g.ts)⟩

/-- Modelled from the spec: `snapshot()` returns an ordered, independent
copy of all currently retained frames. -/
def RingBuffer.snapshot (b : RingBuffer) : List Frame := b.frames

/-- Modelled from the spec: `is_full()` is true once the buffer spans the
full configured duration. -/
def RingBuffer.is_full (b : RingBuffer) : Bool :=
  match b.frames.head?, b.frames.getLast? with
  | some h, some l => decide (b.duration ≤ l.ts - h.ts)
  | _, _ => false

/-- A whole history of pushes applied in capture order. -/
def pushAll (b : RingBuffer) (fs : List Frame) : RingBuffer :=
  fs.foldl RingBuffer.push b

/-! ## Recorder: clip filenames

Modelled from the spec: §4.3/§6 — filenames are
`clip_no_person_<YYYYMMDD>_<HHMMSS>_<N>.<ext>`: a fixed prefix, a UTC
timestamp with second resolution, and a strictly increasing disambiguation
counter.  The `<YYYYMMDD>_<HHMMSS>` field is a fixed-width (15-character)
injective rendering of the wall-clock second; it is embedded as the second
index zero-padded to 15 characters, which has exactly those two properties
for second indices below `10 ^ 15`. -/

def fnPrefix : List Char := "clip_no_person_".data

/-- The fixed-width UTC timestamp field of a clip filename. -/
def tsField (sec : Nat) : List Char := padStart 15 '0' (natChars sec)

/-- Modelled from the spec: the generated clip filename for the trigger at
wall-clock second `sec` with disambiguation counter `n`. -/
def mkFilename (sec : Nat) (n : Nat) : List Char :=
  fnPrefix ++ tsField sec ++ '_' :: natChars n

/-- The filenames generated for a run of triggers at the given wall-clock
seconds, with the counter starting at `c` and incremented per trigger. -/
def filenamesFrom : Nat → List Nat → List (List Char)
  | _, [] => []
  | c, s :: rest => mkFilename s c :: filenamesFrom (c + 1) rest

/-! ## Recorder: presence tracker, capture loop and error policy

Modelled from the spec (§4.2, §4.4, §5, §7): a two-state presence machine;
a per-tick capture loop that pushes every incoming frame, applies the
detection result, and on a `PERSON_PRESENT → NO_PERSON` transition with a
full buffer dispatches an owned snapshot as a `ClipTask` without waiting
for it; export completion (or failure) arrives later as its own event.
Error taxonomy per §7: only `FatalSourceError` halts (non-zero exit code,
`0` reserved for end-of-stream shutdown); a `DetectorError` is treated as
"no detection" for that frame; a `BufferResourceError` rejects the push and
keeps the buffer's existing contents; an `ExportError` discards the
specific `ClipTask` and nothing else. -/

inductive PresenceState where
  | personPresent
  | noPerson
deriving DecidableEq

/-- Modelled from the spec: an immutable snapshot of the ring buffer at
trigger time, plus the generated output filename. -/
structure ClipTask where
  frames : List Frame
  name : List Char
deriving DecidableEq

/-- One observable occurrence at a capture-loop tick. -/
inductive TickEvent where
  | frame (f : Frame) (person : Bool)
  | frameDetectorError (f : Frame)
  | bufferAllocError (f : Frame)
  | exportComplete (i : Nat) (ok : Bool)
  | endOfStream
  | fatalSourceError
deriving DecidableEq

structure SysState where
  buffer : RingBuffer
  presence : PresenceState
  pending : List ClipTask
  counter : Nat
  files : List (List Char × List Frame)
deriving DecidableEq

inductive StepResult where
  | running (s : SysState)
  | halted (exitCode : Nat)
deriving DecidableEq

/-- Modelled from the spec: processing of one successfully read frame with
detection outcome `person`: push into the ring buffer, advance the presence
machine, and on the trigger transition (`PERSON_PRESENT → NO_PERSON` with a
full buffer) dispatch a `ClipTask` holding its own snapshot copy, named
with the trigger's wall-clock second and the strictly increasing counter. -/
def ingest (s : SysState) (f : Frame) (person : Bool) : SysState :=
  if s.presence = .personPresent ∧ person = false ∧ (s.buffer.push f).is_full = true then
    { buffer := s.buffer.push f,
      presence := if person then .personPresent else .noPerson,
      pending := s.pending ++ [⟨(s.buffer.push f).snapshot, mkFilename f.ts.toNat s.counter⟩],
      counter := s.counter + 1, files := s.files }
  else
    { buffer := s.buffer.push f,
      presence := if person then .personPresent else .noPerson,
      pending := s.pending, counter := s.counter, files := s.files }

/-- Modelled from the spec: one capture-loop tick (§4.4 and §7). -/
def tick (s : SysState) (e : TickEvent) : StepResult :=
  match e with
  | .frame f person => .running (ingest s f person)
  | .frameDetectorError f => .running (ingest s f false)
  | .bufferAllocError _ => .running s
  | .exportComplete i ok =>
      match s.pending[i]? with
      | none => .running s
      | some t =>
          .running { s with pending := s.pending.eraseIdx i,
                            files := if ok then s.files ++ [(t.name, t.frames)] else s.files }
  | .endOfStream => .halted 0
  | .fatalSourceError => .halted 1

/-- A run of the capture loop over a sequence of tick events; a halt stops
processing. -/
def stateAfter (s : SysState) : List TickEvent → Option SysState
  | [] => some s
  | e :: es =>
      match tick s e with
      | .running s' => stateAfter s' es
      | .halted _ => none

/-- Events that ingest a frame (the push path), as opposed to export
completions and run-ending conditions. -/
def TickEvent.isIngest : TickEvent → Bool
  | .frame _ _ => true
  | .frameDetectorError _ => true
  | .bufferAllocError _ => true
  | _ => false

/-! ## Helper lemmas on the rendering functions -/

theorem undigits_digitsF : ∀ (fuel n : Nat), n ≤ fuel → undigits (digitsF fuel n) = n := by
  intro fuel
  induction fuel with
  | zero => intro n hn; interval_cases n; rfl
  | succ f ih =>
    intro n hn
    by_cases h0 : n = 0
    · simp [digitsF, h0, undigits]
    · have hdiv : n / 10 ≤ f := by omega
      simp only [digitsF, h0, if_false, undigits, ih _ hdiv]
      omega

theorem undigits_decDigits (n : Nat) : undigits (decDigits n) = n :=
  undigits_digitsF n n le_rfl

theorem decDigits_inj {m n : Nat} (h : decDigits m = decDigits n) : m = n := by
  have := undigits_decDigits m
  rw [h, undigits_decDigits] at this
  omega

theorem digitsF_lt_ten : ∀ (fuel n d : Nat), d ∈ digitsF fuel n → d < 10 := by
  intro fuel
  induction fuel with
  | zero => intro n d hd; simp [digitsF] at hd
  | succ f ih =>
    intro n d hd
    by_cases h0 : n = 0
    · simp [digitsF, h0] at hd
    · simp only [digitsF, h0, if_false, List.mem_cons] at hd
      rcases hd with h | h
      · omega
      · exact ih _ _ h

theorem digitsF_length_le : ∀ (fuel n k : Nat), n ≤ fuel → n < 10 ^ k →
    (digitsF fuel n).length ≤ k := by
  intro fuel
  induction fuel with
  | zero => intro n k _ _; simp [digitsF]
  | succ f ih =>
    intro n k hn hk
    by_cases h0 : n = 0
    · simp [digitsF, h0]
    · have hkpos : k ≠ 0 := by
        rintro rfl; simp at hk; omega
      obtain ⟨j, rfl⟩ : ∃ j, k = j + 1 := ⟨k - 1, by omega⟩
      have hdiv : n / 10 ≤ f := by omega
      have hlt : n / 10 < 10 ^ j := by
        have h10 : 10 ^ (j + 1) = 10 ^ j * 10 := by ring
        rw [h10] at hk
        omega
      simp only [digitsF, h0, if_false, List.length_cons]
      exact Nat.succ_le_succ (ih _ _ hdiv hlt)

theorem digitsF_length_ge : ∀ (fuel n k : Nat), n ≤ fuel → 10 ^ k ≤ n →
    k + 1 ≤ (digitsF fuel n).length := by
  intro fuel
  induction fuel with
  | zero => intro n k hn hk; exfalso; have := Nat.one_le_pow k 10 (by omega); omega
  | succ f ih =>
    intro n k hn hk
    have h0 : n ≠ 0 := by
      have := Nat.one_le_pow k 10 (by omega); omega
    simp only [digitsF, h0, if_false, List.length_cons]
    cases k with
    | zero => omega
    | succ j =>
      have hdiv : n / 10 ≤ f := by
        have h10 : 10 ≤ 10 ^ (j + 1) := by
          calc 10 = 10 ^ 1 := by ring
          _ ≤ 10 ^ (j + 1) := Nat.pow_le_pow_right (by omega) (by omega)
        omega
      have hge : 10 ^ j ≤ n / 10 := by
        have h10 : 10 ^ (j + 1) = 10 ^ j * 10 := by ring
        rw [h10] at hk
        omega
      exact Nat.succ_le_succ (ih _ _ hdiv hge)

theorem digitChar_inj : ∀ d₁ < 10, ∀ d₂ < 10, digitChar d₁ = digitChar d₂ → d₁ = d₂ := by
  decide

theorem map_digitChar_inj : ∀ (l₁ l₂ : List Nat), (∀ d ∈ l₁, d < 10) → (∀ d ∈ l₂, d < 10) →
    l₁.map digitChar = l₂.map digitChar → l₁ = l₂ := by
  intro l₁
  induction l₁ with
  | nil => intro l₂ _ _ h; cases l₂ <;> simp_all
  | cons a t ih =>
    intro l₂ h₁ h₂ h
    cases l₂ with
    | nil => simp at h
    | cons b t₂ =>
      simp only [List.map_cons, List.cons.injEq] at h
      have ha : a = b := digitChar_inj a (h₁ a (by simp)) b (h₂ b (by simp)) h.1
      have ht : t = t₂ :=
        ih t₂ (fun d hd => h₁ d (by simp [hd])) (fun d hd => h₂ d (by simp [hd])) h.2
      rw [ha, ht]

theorem natChars_inj {m n : Nat} (h : natChars m = natChars n) : m = n := by
  unfold natChars at h
  by_cases hm : m = 0 <;> by_cases hn : n = 0
  · omega
  · exfalso
    simp only [hm, if_true, hn, if_false] at h
    have h' : (decDigits n).map digitChar = ['0'] := by
      have := congrArg List.reverse h
      simpa using this.symm
    rcases List.map_eq_cons_iff.mp h' with ⟨d, ds, hds, hd, htail⟩
    have hds0 : ds = [] := by simpa using congrArg List.length htail
    have hd10 : d < 10 := digitsF_lt_ten n n d (by show d ∈ decDigits n; rw [hds]; simp)
    have hdz : d = 0 := by
      have : digitChar d = digitChar 0 := by rw [hd]; rfl
      exact digitChar_inj d hd10 0 (by omega) this
    have : undigits (decDigits n) = 0 := by
      rw [hds, hds0, hdz]; rfl
    rw [undigits_decDigits] at this
    omega
  · exfalso
    simp only [hm, if_false, hn, if_true] at h
    have h' : (decDigits m).map digitChar = ['0'] := by
      have := congrArg List.reverse h
      simpa using this
    rcases List.map_eq_cons_iff.mp h' with ⟨d, ds, hds, hd, htail⟩
    have hds0 : ds = [] := by simpa using congrArg List.length htail
    have hd10 : d < 10 := digitsF_lt_ten m m d (by show d ∈ decDigits m; rw [hds]; simp)
    have hdz : d = 0 := by
      have : digitChar d = digitChar 0 := by rw [hd]; rfl
      exact digitChar_inj d hd10 0 (by omega) this
    have : undigits (decDigits m) = 0 := by
      rw [hds, hds0, hdz]; rfl
    rw [undigits_decDigits] at this
    omega
  · simp only [hm, if_false, hn, if_false] at h
    have h' := congrArg List.reverse h
    simp only [List.reverse_reverse] at h'
    have := map_digitChar_inj (decDigits m) (decDigits n)
      (fun d hd => digitsF_lt_ten m m d hd) (fun d hd => digitsF_lt_ten n n d hd) h'
    exact decDigits_inj this

theorem natChars_length_le {n k : Nat} (hk : 1 ≤ k) (hn : n < 10 ^ k) :
    (natChars n).length ≤ k := by
  unfold natChars
  by_cases h0 : n = 0
  · simp [h0]; omega
  · simp only [h0, if_false, List.length_reverse, List.length_map]
    exact digitsF_length_le n n k le_rfl hn

theorem natChars_length_ge {n : Nat} (hn : 100 ≤ n) : 3 ≤ (natChars n).length := by
  unfold natChars
  have h0 : n ≠ 0 := by omega
  simp only [h0, if_false, List.length_reverse, List.length_map]
  have h2 : 10 ^ 2 ≤ n := by norm_num; omega
  have h3 := digitsF_length_ge n n 2 le_rfl h2
  show 3 ≤ (digitsF n n).length
  omega

theorem padStart_length (len : Nat) (c : Char) (s : List Char) :
    (padStart len c s).length = (len - s.length) + s.length := by
  simp [padStart]

/-! ## C10: severity colour helper -/

theorem toLowerCode_idem (c : Nat) : toLowerCode (toLowerCode c) = toLowerCode c := by
  by_cases h : 65 ≤ c ∧ c ≤ 90
  · simp only [toLowerCode, if_pos h]
    rw [if_neg (by omega)]
  · simp only [toLowerCode, if_neg h]

theorem jsToLowerCase_idem (l : List Nat) :
    jsToLowerCase (jsToLowerCase l) = jsToLowerCase l := by
  induction l with
  | nil => rfl
  | cons a t ih =>
    simp only [jsToLowerCase, List.map_cons] at *
    rw [toLowerCode_idem, ih]

/-- C10: for every input string (including a missing `null`/`undefined`
argument), `getSeverityColor` returns exactly one of `"bg-red-600"`,
`"bg-orange-500"`, `"bg-blue-500"`, `"bg-gray-500"`; it is invariant under
lower-casing its argument; and every input that is not a case variant of
`"critical"`, `"warning"` or `"informational"` — including the missing
argument — yields `"bg-gray-500"`. -/
theorem c10_getSeverityColor (s : Option (List Nat)) :
    (getSeverityColor s = "bg-red-600" ∨ getSeverityColor s = "bg-orange-500" ∨
      getSeverityColor s = "bg-blue-500" ∨ getSeverityColor s = "bg-gray-500") ∧
    getSeverityColor (s.map jsToLowerCase) = getSeverityColor s ∧
    ((∀ l ∈ s, jsToLowerCase l ≠ strCodes "critical" ∧ jsToLowerCase l ≠ strCodes "warning" ∧
        jsToLowerCase l ≠ strCodes "informational") →
      getSeverityColor s = "bg-gray-500") := by
  cases s with
  | none => exact ⟨Or.inr (Or.inr (Or.inr rfl)), rfl, fun _ => rfl⟩
  | some l =>
    refine ⟨?_, ?_, ?_⟩
    · simp only [getSeverityColor]
      split_ifs <;> tauto
    · show getSeverityColor (some (jsToLowerCase l)) = getSeverityColor (some l)
      simp only [getSeverityColor]
      rw [jsToLowerCase_idem]
    · intro h
      obtain ⟨h1, h2, h3⟩ := h l rfl
      simp only [getSeverityColor]
      simp [h1, h2, h3]

/-- Witness for C10 at the concrete upper-case input `"CRITICAL"`. -/
theorem c10_getSeverityColor_witness :
    (getSeverityColor (some (strCodes "CRITICAL")) = "bg-red-600" ∨
      getSeverityColor (some (strCodes "CRITICAL")) = "bg-orange-500" ∨
      getSeverityColor (some (strCodes "CRITICAL")) = "bg-blue-500" ∨
      getSeverityColor (some (strCodes "CRITICAL")) = "bg-gray-500") ∧
    getSeverityColor ((some (strCodes "CRITICAL")).map jsToLowerCase) =
      getSeverityColor (some (strCodes "CRITICAL")) ∧
    ((∀ l ∈ some (strCodes "CRITICAL"),
        jsToLowerCase l ≠ strCodes "critical" ∧ jsToLowerCase l ≠ strCodes "warning" ∧
        jsToLowerCase l ≠ strCodes "informational") →
      getSeverityColor (some (strCodes "CRITICAL")) = "bg-gray-500") :=
  c10_getSeverityColor (some (strCodes "CRITICAL"))

/-! ## C8: approve / reject optimistic update -/

/-- C8: a successful approve (resp. reject) on a session with id `sid` maps
the list so that, position by position, a session whose `session_id` equals
`sid` gets its `status` set to `"approved"` (resp. `"rejected"`) with every
other field unchanged, and every session whose `session_id` differs is
completely unchanged; the list's length (and hence order of positions) is
preserved. -/
theorem c8_approve_reject (l : List Session) (sid : String) (i : Nat) (s : Session)
    (h : l[i]? = some s) :
    (approveUpdate l sid).length = l.length ∧
    (rejectUpdate l sid).length = l.length ∧
    (s.session_id = sid →
      (approveUpdate l sid)[i]? = some { s with status := "approved" } ∧
      (rejectUpdate l sid)[i]? = some { s with status := "rejected" }) ∧
    (s.session_id ≠ sid →
      (approveUpdate l sid)[i]? = some s ∧ (rejectUpdate l sid)[i]? = some s) := by
  refine ⟨by simp [approveUpdate], by simp [rejectUpdate], ?_, ?_⟩
  · intro hs
    constructor <;> simp [approveUpdate, rejectUpdate, List.getElem?_map, h, hs]
  · intro hs
    constructor <;> simp [approveUpdate, rejectUpdate, List.getElem?_map, h, hs]

/-- Witness for C8 at a concrete two-session list: the first session
matches and is approved / rejected, the second is untouched. -/
theorem c8_approve_reject_witness :
    (approveUpdate [⟨"s1", "p", "d", "n", "c", "v", "lv", "cam", "la", "lo", "sv", "cf"⟩,
        ⟨"s2", "p", "d", "n", "c", "v", "lv", "cam", "la", "lo", "sv", "cf"⟩] "s1").length = 2 ∧
    (approveUpdate [⟨"s1", "p", "d", "n", "c", "v", "lv", "cam", "la", "lo", "sv", "cf"⟩,
        ⟨"s2", "p", "d", "n", "c", "v", "lv", "cam", "la", "lo", "sv", "cf"⟩] "s1")[0]? =
      some ⟨"s1", "approved", "d", "n", "c", "v", "lv", "cam", "la", "lo", "sv", "cf"⟩ ∧
    (rejectUpdate [⟨"s1", "p", "d", "n", "c", "v", "lv", "cam", "la", "lo", "sv", "cf"⟩,
        ⟨"s2", "p", "d", "n", "c", "v", "lv", "cam", "la", "lo", "sv", "cf"⟩] "s1")[1]? =
      some ⟨"s2", "p", "d", "n", "c", "v", "lv", "cam", "la", "lo", "sv", "cf"⟩ := by
  have h1 := c8_approve_reject
    [⟨"s1", "p", "d", "n", "c", "v", "lv", "cam", "la", "lo", "sv", "cf"⟩,
     ⟨"s2", "p", "d", "n", "c", "v", "lv", "cam", "la", "lo", "sv", "cf"⟩] "s1" 0
    ⟨"s1", "p", "d", "n", "c", "v", "lv", "cam", "la", "lo", "sv", "cf"⟩ rfl
  have h2 := c8_approve_reject
    [⟨"s1", "p", "d", "n", "c", "v", "lv", "cam", "la", "lo", "sv", "cf"⟩,
     ⟨"s2", "p", "d", "n", "c", "v", "lv", "cam", "la", "lo", "sv", "cf"⟩] "s1" 1
    ⟨"s2", "p", "d", "n", "c", "v", "lv", "cam", "la", "lo", "sv", "cf"⟩ rfl
  exact ⟨h1.1, (h1.2.2.1 rfl).1, (h2.2.2.2 (by decide)).2⟩

/-! ## C9: the video player's `formatTime` -/

theorem floor_intCast_div (a b : ℤ) (hb : 0 < b) : ⌊(a : ℚ) / (b : ℚ)⌋ = a / b := by
  rw [Int.floor_eq_iff]
  constructor
  · rw [le_div_iff₀ (by exact_mod_cast hb)]
    exact_mod_cast Int.ediv_mul_le a (by omega)
  · rw [div_lt_iff₀ (by exact_mod_cast hb)]
    exact_mod_cast Int.lt_ediv_add_one_mul_self a hb

theorem jsFloorDiv_eq_floor (q : ℚ) (m : ℕ) (hm : 0 < m) :
    jsFloorDiv q m = ⌊q / (m : ℚ)⌋ := by
  have hb : (0 : ℤ) < (q.den : ℤ) * m := by
    have hden : 0 < (q.den : ℤ) := by exact_mod_cast q.den_pos
    have hm' : 0 < (m : ℤ) := by exact_mod_cast hm
    positivity
  have hq : q / (m : ℚ) = (q.num : ℚ) / (((q.den : ℤ) * m : ℤ) : ℚ) := by
    conv_lhs => rw [← Rat.num_div_den q, div_div]
    push_cast
    ring_nf
  rw [jsFloorDiv, hq, floor_intCast_div _ _ hb]

theorem jsFloorMod_eq (q : ℚ) (hq : 0 ≤ q) (m : ℕ) (hm : 0 < m) :
    jsFloorMod q m = ⌊q - (m : ℚ) * (⌊q / (m : ℚ)⌋ : ℚ)⌋ := by
  have hnum : 0 ≤ q.num := Rat.num_nonneg.mpr hq
  have hb : (0 : ℤ) ≤ (q.den : ℤ) * m := by positivity
  have htd : jsTruncDiv q m = jsFloorDiv q m := Int.tdiv_eq_ediv hnum hb
  rw [jsFloorMod, htd, jsFloorDiv_eq_floor q m hm]
  have h1 : (m : ℚ) * ((⌊q / (m : ℚ)⌋ : ℤ) : ℚ) = (((m : ℤ) * ⌊q / (m : ℚ)⌋ : ℤ) : ℚ) := by
    push_cast
    ring
  rw [h1, Int.floor_sub_int]
  have h2 : ⌊q⌋ = q.num / (q.den : ℤ) := Rat.floor_def
  linarith

/-- C9 counterexample: the claim asserts a minutes field of three or more
digits for every time of one hour or more, but at exactly one hour the code
renders `"60:00"` — a two-digit minutes field. -/
theorem c9_counterexample :
    formatTime 3600 = "60:00" ∧ (0 : ℚ) ≤ 3600 ∧ (3600 : ℚ) ≤ 3600 ∧
    ¬ 3 ≤ (padStart 2 '0' (intChars ⌊(3600 : ℚ) / 60⌋)).length := by
  refine ⟨by decide, by norm_num, le_refl _, ?_⟩
  have h : ⌊(3600 : ℚ) / 60⌋ = 60 := by
    rw [show (3600 : ℚ) / 60 = ((60 : ℤ) : ℚ) by norm_num, Int.floor_intCast]
  rw [h]
  decide

/-- C9 (amended): for every non-negative rational `t`, `formatTime t`
returns `⌊t/60⌋` zero-padded to at least two digits, `':'`, and
`⌊t mod 60⌋` zero-padded to two digits; times of one hour or more show the
full minute count (`⌊t/60⌋ ≥ 60`) rather than wrapping into hours, and the
minutes field reaches three or more digits once `t ≥ 6000` seconds
(100 minutes) — not already at one hour. -/
theorem c9_formatTime (q : ℚ) (hq : 0 ≤ q) :
    formatTime q = String.mk (padStart 2 '0' (intChars ⌊q / 60⌋) ++
      ':' :: padStart 2 '0' (intChars ⌊q - 60 * (⌊q / 60⌋ : ℚ)⌋)) ∧
    (3600 ≤ q → 60 ≤ ⌊q / 60⌋) ∧
    (6000 ≤ q → 3 ≤ (padStart 2 '0' (intChars ⌊q / 60⌋)).length) := by
  have h60 : ((60 : ℕ) : ℚ) = (60 : ℚ) := by norm_cast
  refine ⟨?_, ?_, ?_⟩
  · unfold formatTime
    rw [jsFloorDiv_eq_floor q 60 (by omega), jsFloorMod_eq q hq 60 (by omega), h60]
  · intro h
    rw [Int.le_floor, le_div_iff₀ (by norm_num)]
    push_cast
    linarith
  · intro h
    have h100 : 100 ≤ ⌊q / 60⌋ := by
      rw [Int.le_floor, le_div_iff₀ (by norm_num)]
      push_cast
      linarith
    have hpos : ¬ ⌊q / 60⌋ < 0 := by omega
    rw [intChars, if_neg hpos]
    have htn : 100 ≤ ⌊q / 60⌋.toNat := by omega
    have h3 := natChars_length_ge htn
    rw [padStart_length]
    omega

/-- Witness for C9 at the concrete input `0`. -/
theorem c9_formatTime_witness :
    formatTime 0 = String.mk (padStart 2 '0' (intChars ⌊(0 : ℚ) / 60⌋) ++
      ':' :: padStart 2 '0' (intChars ⌊(0 : ℚ) - 60 * (⌊(0 : ℚ) / 60⌋ : ℚ)⌋)) ∧
    ((3600 : ℚ) ≤ 0 → 60 ≤ ⌊(0 : ℚ) / 60⌋) ∧
    ((6000 : ℚ) ≤ 0 → 3 ≤ (padStart 2 '0' (intChars ⌊(0 : ℚ) / 60⌋)).length) :=
  c9_formatTime 0 le_rfl

/-! ## C7: configuration defaults -/

/-- C7: when no value is supplied for an option, the recorder uses exactly
the documented defaults — confidence threshold `0.25`, output directory
`"recordings"`, buffer duration `10.0` seconds. -/
theorem c7_defaults (o : RecorderOptions) :
    (o.conf = none → (resolveConfig o).conf = 0.25) ∧
    (o.saveDir = none → (resolveConfig o).saveDir = "recordings") ∧
    (o.bufferSeconds = none → (resolveConfig o).bufferSeconds = 10.0) := by
  refine ⟨fun h => ?_, fun h => ?_, fun h => ?_⟩ <;> simp [resolveConfig, h]

/-- Witness for C7: the empty option set resolves to all three defaults. -/
theorem c7_defaults_witness :
    (resolveConfig (RecorderOptions.mk none none none none none)).conf = 0.25 ∧
    (resolveConfig (RecorderOptions.mk none none none none none)).saveDir = "recordings" ∧
    (resolveConfig (RecorderOptions.mk none none none none none)).bufferSeconds = 10.0 :=
  have h := c7_defaults (RecorderOptions.mk none none none none none)
  ⟨h.1 rfl, h.2.1 rfl, h.2.2 rfl⟩

/-! ## C2: ring-buffer retention -/

theorem push_frames (b : RingBuffer) (f : Frame) :
    (b.push f).frames = (b.frames ++ [f]).filter fun g => decide (f.ts - b.duration ≤ g.ts) :=
  rfl

theorem push_duration (b : RingBuffer) (f : Frame) : (b.push f).duration = b.duration := rfl

theorem pushAll_snapshot_filter : ∀ (fs : List Frame) (b : RingBuffer) (h : fs ≠ []),
    ((b.frames ++ fs).Pairwise fun a c => a.ts ≤ c.ts) →
    (pushAll b fs).frames =
      (b.frames ++ fs).filter fun g => decide ((fs.getLast h).ts - b.duration ≤ g.ts) := by
  intro fs
  induction fs with
  | nil => intro b h _; exact absurd rfl h
  | cons f rest ih =>
    intro b h hp
    by_cases hr : rest = []
    · subst hr
      show (b.push f).frames = _
      rw [push_frames]
      rfl
    · show (pushAll (b.push f) rest).frames = _
      have hfil : List.Sublist ((b.frames ++ [f]).filter
          fun g => decide (f.ts - b.duration ≤ g.ts)) (b.frames ++ [f]) :=
        List.filter_sublist _
      have hsub : List.Sublist ((b.push f).frames ++ rest) (b.frames ++ (f :: rest)) := by
        rw [push_frames]
        have h1 := List.Sublist.append hfil (List.Sublist.refl rest)
        simpa [List.append_assoc] using h1
      have hp' : ((b.push f).frames ++ rest).Pairwise (fun a c => a.ts ≤ c.ts) :=
        hp.sublist hsub
      rw [ih (b.push f) hr hp', push_duration]
      have hfle : f.ts ≤ (rest.getLast hr).ts := by
        have hmem : rest.getLast hr ∈ rest := List.getLast_mem hr
        have hfr : (f :: rest).Pairwise (fun a c => a.ts ≤ c.ts) :=
          (List.pairwise_append.mp hp).2.1
        exact (List.pairwise_cons.mp hfr).1 _ hmem
      have hlast : (f :: rest).getLast h = rest.getLast hr := List.getLast_cons hr
      have hsplit : b.frames ++ f :: rest = (b.frames ++ [f]) ++ rest := by simp
      have habsorb : ∀ (l : List Frame),
          (l.filter fun a => decide ((rest.getLast hr).ts - b.duration ≤ a.ts) &&
            decide (f.ts - b.duration ≤ a.ts)) =
          l.filter fun a => decide ((rest.getLast hr).ts - b.duration ≤ a.ts) := by
        intro l
        apply List.filter_congr
        intro g _
        by_cases hLg : (rest.getLast hr).ts - b.duration ≤ g.ts
        · have hfg : f.ts - b.duration ≤ g.ts := by omega
          simp [hLg, hfg]
        · simp [hLg]
      rw [hlast, push_frames, hsplit]
      simp only [List.filter_append, List.filter_filter, habsorb]

/-- C2: for every non-empty sequence of pushes with monotone capture
timestamps, the buffer built by pushing them all into an empty ring buffer
of duration `d` retains exactly those pushed frames whose timestamp lies
within `d` of the most recent push's timestamp, in capture order — all
older frames are unreachable through `snapshot()`. -/
theorem c2_ringbuffer_retention (d : ℤ) (fs : List Frame) (h : fs ≠ [])
    (hmono : fs.Pairwise fun a c => a.ts ≤ c.ts) :
    (pushAll ⟨d, []⟩ fs).snapshot =
      fs.filter fun g => decide ((fs.getLast h).ts - d ≤ g.ts) := by
  have hres := pushAll_snapshot_filter fs ⟨d, []⟩ h (by simpa using hmono)
  simpa [RingBuffer.snapshot] using hres

/-- Witness for C2: pushing three frames at times 0, 3, 10 into an empty
buffer of duration 5 retains exactly the frame at time 10. -/
theorem c2_ringbuffer_retention_witness :
    (pushAll ⟨5, []⟩ [⟨0, 0⟩, ⟨1, 3⟩, ⟨2, 10⟩]).snapshot =
      [(⟨0, 0⟩ : Frame), ⟨1, 3⟩, ⟨2, 10⟩].filter
        (fun g => decide (([(⟨0, 0⟩ : Frame), ⟨1, 3⟩, ⟨2, 10⟩].getLast (by decide)).ts - 5 ≤ g.ts)) ∧
    (pushAll ⟨5, []⟩ [⟨0, 0⟩, ⟨1, 3⟩, ⟨2, 10⟩]).snapshot = [⟨2, 10⟩] :=
  ⟨c2_ringbuffer_retention 5 [⟨0, 0⟩, ⟨1, 3⟩, ⟨2, 10⟩] (by decide) (by decide), by decide⟩

/-! ## C4: clip filename uniqueness -/

theorem tsField_length {s : Nat} (hs : s < 10 ^ 15) : (tsField s).length = 15 := by
  have hle := natChars_length_le (n := s) (k := 15) (by omega) hs
  rw [tsField, padStart_length]
  omega

theorem mkFilename_counter_inj {s₁ s₂ n₁ n₂ : Nat} (h₁ : s₁ < 10 ^ 15) (h₂ : s₂ < 10 ^ 15)
    (h : mkFilename s₁ n₁ = mkFilename s₂ n₂) : n₁ = n₂ := by
  unfold mkFilename at h
  rw [List.append_assoc, List.append_assoc] at h
  have h' := List.append_cancel_left h
  have hlen : (tsField s₁).length = (tsField s₂).length := by
    rw [tsField_length h₁, tsField_length h₂]
  obtain ⟨_, hrest⟩ := List.append_inj h' hlen
  have htail : natChars n₁ = natChars n₂ := by injection hrest
  exact natChars_inj htail

theorem mem_filenamesFrom : ∀ (secs : List Nat) (c : Nat) (name : List Char),
    name ∈ filenamesFrom c secs → ∃ s n, s ∈ secs ∧ c ≤ n ∧ name = mkFilename s n := by
  intro secs
  induction secs with
  | nil => intro c name h; simp [filenamesFrom] at h
  | cons s rest ih =>
    intro c name h
    simp only [filenamesFrom, List.mem_cons] at h
    rcases h with h | h
    · exact ⟨s, c, by simp, le_rfl, h⟩
    · obtain ⟨s', n, hs', hn, hname⟩ := ih (c + 1) name h
      exact ⟨s', n, by simp [hs'], by omega, hname⟩

/-- C4: across a run of triggers (each consuming the next value of the
strictly increasing counter), all generated clip filenames are pairwise
distinct — in particular also when several triggers share the same
wall-clock second; the timestamp field is the second rendered at its fixed
15-character width, so the bound `sec < 10 ^ 15` makes it fixed-width. -/
theorem c4_filenames_distinct (c0 : Nat) (secs : List Nat) (hb : ∀ s ∈ secs, s < 10 ^ 15) :
    (filenamesFrom c0 secs).Pairwise (· ≠ ·) := by
  revert hb
  induction secs generalizing c0 with
  | nil => intro _; simp [filenamesFrom]
  | cons s rest ih =>
    intro hb
    simp only [filenamesFrom]
    refine List.Pairwise.cons ?_ (ih (c0 + 1) (fun x hx => hb x (by simp [hx])))
    intro name hname heq
    obtain ⟨s', n, hs', hn, rfl⟩ := mem_filenamesFrom rest (c0 + 1) name hname
    have hs0 : s < 10 ^ 15 := hb s (by simp)
    have hs'b : s' < 10 ^ 15 := hb s' (by simp [hs'])
    have := mkFilename_counter_inj hs0 hs'b heq
    omega

/-- Witness for C4: three triggers, two of them in the same wall-clock
second, generate pairwise distinct filenames. -/
theorem c4_filenames_distinct_witness :
    (filenamesFrom 0 [7, 7, 8]).Pairwise (· ≠ ·) :=
  c4_filenames_distinct 0 [7, 7, 8] (by decide)

/-! ## C1, C3, C5, C6: the capture loop -/

theorem ingest_buffer (s : SysState) (f : Frame) (person : Bool) :
    (ingest s f person).buffer = s.buffer.push f := by
  unfold ingest
  split <;> rfl

theorem ingest_pending (s : SysState) (f : Frame) (person : Bool) :
    ∃ r, (ingest s f person).pending = s.pending ++ r := by
  unfold ingest
  by_cases hc : s.presence = .personPresent ∧ person = false ∧ (s.buffer.push f).is_full = true
  · rw [if_pos hc]
    exact ⟨_, rfl⟩
  · rw [if_neg hc]
    exact ⟨[], by simp⟩

theorem ingest_counter_iff (s : SysState) (f : Frame) (person : Bool) :
    (ingest s f person).counter = s.counter + 1 ↔
      (s.presence = .personPresent ∧ (ingest s f person).presence = .noPerson ∧
        (ingest s f person).buffer.is_full = true) := by
  unfold ingest
  by_cases hc : s.presence = .personPresent ∧ person = false ∧ (s.buffer.push f).is_full = true
  · rw [if_pos hc]
    obtain ⟨hpres, hperson, hfull⟩ := hc
    subst hperson
    exact iff_of_true rfl ⟨hpres, rfl, hfull⟩
  · rw [if_neg hc]
    apply iff_of_false
    · show ¬(s.counter = s.counter + 1)
      omega
    · rintro ⟨h1, h2, h3⟩
      apply hc
      cases person with
      | false => exact ⟨h1, rfl, show (s.buffer.push f).is_full = true from h3⟩
      | true =>
        exact absurd (show PresenceState.personPresent = .noPerson from h2) (by simp)

/-- C1: at every processed tick that keeps the run going, a Trigger is
emitted (the clip counter advances, dispatching exactly one clip task) if
and only if the presence tracker transitions `PERSON_PRESENT → NO_PERSON`
at that tick and the ring buffer is full at that instant.  Consequently no
trigger is emitted before the buffer first spans its full duration, and
every such transition with a full buffer emits exactly one trigger, so
state flicker on consecutive frames emits repeated triggers. -/
theorem c1_trigger_iff (s : SysState) (e : TickEvent) (s' : SysState)
    (h : tick s e = .running s') :
    s'.counter = s.counter + 1 ↔
      (s.presence = .personPresent ∧ s'.presence = .noPerson ∧
        s'.buffer.is_full = true) := by
  cases e with
  | frame f person =>
    have hs' : s' = ingest s f person := by
      have h' : StepResult.running (ingest s f person) = .running s' := h
      cases h'
      rfl
    subst hs'
    exact ingest_counter_iff s f person
  | frameDetectorError f =>
    have hs' : s' = ingest s f false := by
      have h' : StepResult.running (ingest s f false) = .running s' := h
      cases h'
      rfl
    subst hs'
    exact ingest_counter_iff s f false
  | bufferAllocError f =>
    have hs' : s' = s := by
      have h' : StepResult.running s = .running s' := h
      cases h'
      rfl
    subst hs'
    apply iff_of_false
    · omega
    · rintro ⟨h1, h2, _⟩
      rw [h1] at h2
      exact PresenceState.noConfusion h2
  | exportComplete i ok =>
    cases hpi : s.pending[i]? with
    | none =>
      have hs' : s' = s := by
        have h' : StepResult.running s = .running s' := by
          simpa [tick, hpi] using h
        cases h'
        rfl
      subst hs'
      apply iff_of_false
      · omega
      · rintro ⟨h1, h2, _⟩
        rw [h1] at h2
        exact PresenceState.noConfusion h2
    | some t =>
      have hs' : s' = { s with
          pending := s.pending.eraseIdx i
          files := if ok then s.files ++ [(t.name, t.frames)] else s.files } := by
        have h' : StepResult.running { s with
            pending := s.pending.eraseIdx i
            files := if ok then s.files ++ [(t.name, t.frames)] else s.files } =
              .running s' := by
          simpa [tick, hpi] using h
        cases h'
        rfl
      subst hs'
      apply iff_of_false
      · show ¬(s.counter = s.counter + 1)
        omega
      · rintro ⟨h1, h2, _⟩
        have h2' : s.presence = .noPerson := h2
        rw [h1] at h2'
        exact PresenceState.noConfusion h2'
  | endOfStream => exact absurd h (by simp [tick])
  | fatalSourceError => exact absurd h (by simp [tick])

/-- Witness for C1: a concrete state in `PERSON_PRESENT` with a buffer that
becomes full on the next push, receiving a no-person frame — the counter
advances and the transition condition holds. -/
theorem c1_trigger_iff_witness :
    (SysState.mk ⟨1, [⟨0, 0⟩, ⟨1, 1⟩]⟩ .noPerson
        [⟨[⟨0, 0⟩, ⟨1, 1⟩], mkFilename 1 0⟩] 1 []).counter =
      (SysState.mk ⟨1, [⟨0, 0⟩]⟩ .personPresent [] 0 []).counter + 1 ↔
      ((SysState.mk ⟨1, [⟨0, 0⟩]⟩ .personPresent [] 0 []).presence = .personPresent ∧
        (SysState.mk ⟨1, [⟨0, 0⟩, ⟨1, 1⟩]⟩ .noPerson
          [⟨[⟨0, 0⟩, ⟨1, 1⟩], mkFilename 1 0⟩] 1 []).presence = .noPerson ∧
        (SysState.mk ⟨1, [⟨0, 0⟩, ⟨1, 1⟩]⟩ .noPerson
          [⟨[⟨0, 0⟩, ⟨1, 1⟩], mkFilename 1 0⟩] 1 []).buffer.is_full = true) :=
  c1_trigger_iff (SysState.mk ⟨1, [⟨0, 0⟩]⟩ .personPresent [] 0 [])
    (.frame ⟨1, 1⟩ false)
    (SysState.mk ⟨1, [⟨0, 0⟩, ⟨1, 1⟩]⟩ .noPerson
      [⟨[⟨0, 0⟩, ⟨1, 1⟩], mkFilename 1 0⟩] 1 [])
    (by decide)

/-- C3: snapshot independence — an in-flight `ClipTask` holds its own copy
of the frames, so after any further sequence of frame-ingesting events the
pending list only ever extends: every task that was pending, with its
ordered frame list, is still there unchanged. -/
theorem c3_snapshot_independence (s : SysState) (es : List TickEvent) (s' : SysState)
    (hing : ∀ e ∈ es, e.isIngest = true) (hrun : stateAfter s es = some s') :
    ∃ rest, s'.pending = s.pending ++ rest := by
  induction es generalizing s with
  | nil =>
    have hs : s = s' := by simpa [stateAfter] using hrun
    subst hs
    exact ⟨[], by simp⟩
  | cons e es ih =>
    have he := hing e (by simp)
    have hes : ∀ e' ∈ es, e'.isIngest = true := fun e' h' => hing e' (by simp [h'])
    cases e with
    | frame f person =>
      have hrun' : stateAfter (ingest s f person) es = some s' := by
        simpa [stateAfter, tick] using hrun
      obtain ⟨r1, hr1⟩ := ih (ingest s f person) hes hrun'
      obtain ⟨r2, hr2⟩ := ingest_pending s f person
      exact ⟨r2 ++ r1, by rw [hr1, hr2, List.append_assoc]⟩
    | frameDetectorError f =>
      have hrun' : stateAfter (ingest s f false) es = some s' := by
        simpa [stateAfter, tick] using hrun
      obtain ⟨r1, hr1⟩ := ih (ingest s f false) hes hrun'
      obtain ⟨r2, hr2⟩ := ingest_pending s f false
      exact ⟨r2 ++ r1, by rw [hr1, hr2, List.append_assoc]⟩
    | bufferAllocError f =>
      have hrun' : stateAfter s es = some s' := by
        simpa [stateAfter, tick] using hrun
      exact ih s hes hrun'
    | exportComplete i ok => simp [TickEvent.isIngest] at he
    | endOfStream => simp [TickEvent.isIngest] at he
    | fatalSourceError => simp [TickEvent.isIngest] at he

/-- Witness for C3: a pending task survives a concrete ingested frame. -/
theorem c3_snapshot_independence_witness :
    ∃ rest, (SysState.mk ⟨2, [⟨1, 5⟩]⟩ .personPresent [⟨[⟨0, 0⟩], ['a']⟩] 0 []).pending =
      (SysState.mk ⟨2, []⟩ .noPerson [⟨[⟨0, 0⟩], ['a']⟩] 0 []).pending ++ rest :=
  c3_snapshot_independence (SysState.mk ⟨2, []⟩ .noPerson [⟨[⟨0, 0⟩], ['a']⟩] 0 [])
    [.frame ⟨1, 5⟩ true]
    (SysState.mk ⟨2, [⟨1, 5⟩]⟩ .personPresent [⟨[⟨0, 0⟩], ['a']⟩] 0 [])
    (by decide) (by decide)

/-- C5: error propagation policy — only a fatal source error halts the run
(with the non-zero exit code 1; exit code 0 is reserved for end-of-stream
shutdown); a detector error is handled as "no detection" and the loop keeps
running; a buffer allocation error leaves the whole state unchanged; an
export error discards exactly the failing `ClipTask`, leaving the ring
buffer, presence state and written files untouched, and frame ingestion
continues normally afterwards. -/
theorem c5_error_policy (s : SysState) :
    tick s .fatalSourceError = .halted 1 ∧
    tick s .endOfStream = .halted 0 ∧
    (∀ e c, tick s e = .halted c → c ≠ 0 → e = .fatalSourceError) ∧
    (∀ f, tick s (.frameDetectorError f) = .running (ingest s f false)) ∧
    (∀ f, tick s (.bufferAllocError f) = .running s) ∧
    (∀ i t, s.pending[i]? = some t →
      tick s (.exportComplete i false) =
        .running { s with pending := s.pending.eraseIdx i } ∧
      ∀ f person, tick { s with pending := s.pending.eraseIdx i } (.frame f person) =
        .running (ingest { s with pending := s.pending.eraseIdx i } f person)) := by
  refine ⟨rfl, rfl, ?_, fun f => rfl, fun f => rfl, ?_⟩
  · intro e c hh hc
    cases e with
    | frame f person => exact absurd hh (by simp [tick])
    | frameDetectorError f => exact absurd hh (by simp [tick])
    | bufferAllocError f => exact absurd hh (by simp [tick])
    | exportComplete i ok =>
      exfalso
      cases hpi : s.pending[i]? with
      | none => exact absurd hh (by simp [tick, hpi])
      | some t => exact absurd hh (by simp [tick, hpi])
    | endOfStream =>
      have : StepResult.halted 0 = .halted c := hh
      cases this
      exact absurd rfl hc
    | fatalSourceError => rfl
  · intro i t hpi
    refine ⟨?_, fun f person => rfl⟩
    simp [tick, hpi]

/-- Witness for C5 at a concrete state with one pending export task. -/
theorem c5_error_policy_witness :
    tick (SysState.mk ⟨2, []⟩ .noPerson [⟨[⟨0, 0⟩], ['a']⟩] 1 []) .fatalSourceError =
      .halted 1 ∧
    tick (SysState.mk ⟨2, []⟩ .noPerson [⟨[⟨0, 0⟩], ['a']⟩] 1 []) (.exportComplete 0 false) =
      .running { SysState.mk ⟨2, []⟩ .noPerson [⟨[⟨0, 0⟩], ['a']⟩] 1 [] with
        pending := ([⟨[⟨0, 0⟩], ['a']⟩] : List ClipTask).eraseIdx 0 } :=
  have h := c5_error_policy (SysState.mk ⟨2, []⟩ .noPerson [⟨[⟨0, 0⟩], ['a']⟩] 1 [])
  ⟨h.1, (h.2.2.2.2.2 0 ⟨[⟨0, 0⟩], ['a']⟩ rfl).1⟩

/-- C6: export is fire-and-forget — every incoming frame is pushed into the
ring buffer and the loop immediately keeps running, whatever exports are in
flight; and a completing export writes exactly its own task's name and
frame list (its private snapshot copy), removing only that task from the
pending list, so two overlapping exports produce independent, uncorrupted
outputs and no frame between their triggers is lost. -/
theorem c6_fire_and_forget (s : SysState) :
    (∀ f person, tick s (.frame f person) = .running (ingest s f person) ∧
      (ingest s f person).buffer = s.buffer.push f) ∧
    (∀ i t, s.pending[i]? = some t →
      tick s (.exportComplete i true) =
        .running { s with
          pending := s.pending.eraseIdx i
          files := s.files ++ [(t.name, t.frames)] }) := by
  refine ⟨fun f person => ⟨rfl, ingest_buffer s f person⟩, ?_⟩
  intro i t hpi
  simp [tick, hpi]

/-- Witness for C6: with two in-flight tasks, completing the first writes
exactly its own frames and leaves the second pending. -/
theorem c6_fire_and_forget_witness :
    tick (SysState.mk ⟨2, []⟩ .noPerson [⟨[⟨0, 0⟩], ['a']⟩, ⟨[⟨1, 3⟩], ['b']⟩] 2 [])
        (.exportComplete 0 true) =
      .running { SysState.mk ⟨2, []⟩ .noPerson [⟨[⟨0, 0⟩], ['a']⟩, ⟨[⟨1, 3⟩], ['b']⟩] 2 [] with
        pending := ([⟨[⟨0, 0⟩], ['a']⟩, ⟨[⟨1, 3⟩], ['b']⟩] : List ClipTask).eraseIdx 0,
        files := [(['a'], [⟨0, 0⟩])] } :=
  (c6_fire_and_forget
      (SysState.mk ⟨2, []⟩ .noPerson [⟨[⟨0, 0⟩], ['a']⟩, ⟨[⟨1, 3⟩], ['b']⟩] 2 [])).2
    0 ⟨[⟨0, 0⟩], ['a']⟩ rfl

end CrowdShield
